import Mathlib

/-!
Verification development for the ecfs core-to-ECFS transformer
(src/src/core_accessors.c).  The data model and the operations below are a
shallow embedding of the C source: program headers, the text-merge passes,
the note walk, the personality bits, the section finalisation, socket
resolution, maps-line classification and the live-memory segment reader.
Machine integers are modelled as Nat or Int; file contents as lists of
bytes; out-of-bounds reads of a memory mapping are modelled as an error
value (none).
-/

namespace Ecfs

/-! ELF constants (values from the standard ELF headers). -/

def PT_LOAD : Nat := 1
def PT_DYNAMIC : Nat := 2
def PT_INTERP : Nat := 3
def PT_NOTE : Nat := 4
def PF_X : Nat := 1
def PF_W : Nat := 2
def PF_R : Nat := 4
def ET_DYN : Nat := 3

/-- ELF program header: the fields of Elf64_Phdr read and written by the
merge code and by parse_orig_phdrs.  Offsets, addresses and sizes are
mathematical integers (no overflow occurs at the claimed properties). -/
structure Phdr where
  p_type : Nat
  p_flags : Nat
  p_offset : Int
  p_vaddr : Int
  p_filesz : Int
  p_memsz : Int
deriving DecidableEq

/-- The offset adjustment applied by both merge passes to a program header
that follows the merged text segment: the p_offset field grows by
(tlen - 4096). -/
def shiftPhdr (tlen : Int) (p : Phdr) : Phdr :=
  { p with p_offset := p.p_offset + (tlen - 4096) }

/-- The adjustment merge_text_image applies to headers after the match:
only PT_LOAD headers are shifted there. -/
def shiftLoad (tlen : Int) (p : Phdr) : Phdr :=
  if p.p_type = PT_LOAD then shiftPhdr tlen p else p

/-- The program-header loop of merge_text_image (shared-library merge):
walks the header array; at a header whose p_vaddr equals text_addr it
records textOffset and nextOffset (the following header, read before any
shift) and sets p_filesz to p_memsz; after a match every later PT_LOAD
header has its p_offset pushed forward by (tlen - 4096).  The accumulator
holds (textOffset, nextOffset) once found (found_text in C); reading the
successor of a matched final header is out of bounds in C and is modelled
as none. -/
def shlibLoop (text_addr tlen : Int) :
    List Phdr → Option (Int × Int) → Option (List Phdr × Option (Int × Int))
  | [], acc => some ([], acc)
  | p :: rest, acc =>
    if p.p_vaddr = text_addr then
      match rest with
      | [] => none
      | q :: _ =>
        match shlibLoop text_addr tlen rest (some (p.p_offset, q.p_offset)) with
        | none => none
        | some (l, a) => some ({ p with p_filesz := p.p_memsz } :: l, a)
    else if acc.isSome = true ∧ p.p_type = PT_LOAD then
      match shlibLoop text_addr tlen rest acc with
      | none => none
      | some (l, a) => some (shiftPhdr tlen p :: l, a)
    else
      match shlibLoop text_addr tlen rest acc with
      | none => none
      | some (l, a) => some (p :: l, a)

/-- The program-header loop of merge_exe_text_into_core (main-executable
merge): the match condition is containment of textVaddr; at a match the
code records textOffset and dataOffset (the following header offset read
before its shift), sets p_filesz to p_memsz, shifts the immediately
following header (data_index = i + 1) in place, and the local textVaddr
becomes the matched p_vaddr; later iterations skip data_index and shift
every other subsequent header (of any type) by (tlen - 4096).  i is the
loop index, dIdx the data_index slot and the accumulator holds
(textOffset, dataOffset).  The in-place shift of the header at data_index
is modelled by the pending flag: it is applied when that header is
visited, before the header is examined, which is the state the C loop
sees there. -/
def exeLoop (tlen tv : Int) (i : Nat) (dIdx : Option Nat) (acc : Option (Int × Int))
    (pending : Bool) : List Phdr → Option (List Phdr × Option (Int × Int))
  | [] => some ([], acc)
  | p0 :: rest =>
    let p := if pending then shiftPhdr tlen p0 else p0
    if p.p_vaddr ≤ tv ∧ tv < p.p_vaddr + p.p_memsz then
      match rest with
      | [] => none
      | q :: _ =>
        match exeLoop tlen p.p_vaddr (i + 1) (some (i + 1)) (some (p.p_offset, q.p_offset))
            true rest with
        | none => none
        | some (l, a) => some ({ p with p_filesz := p.p_memsz } :: l, a)
    else if acc.isSome = true ∧ ¬ dIdx = some i then
      match exeLoop tlen tv (i + 1) dIdx acc false rest with
      | none => none
      | some (l, a) => some (shiftPhdr tlen p :: l, a)
    else
      match exeLoop tlen tv (i + 1) dIdx acc false rest with
      | none => none
      | some (l, a) => some (p :: l, a)

/-- Reading len bytes of a memory-mapped file image starting at offset off,
as one write(out, mem + off, len) call consumes them.  A range not fully
inside the image is not backed by file bytes (and may fault), so it is
modelled as an error. -/
def readBytes (mem : List Nat) (off len : Int) : Option (List Nat) :=
  if 0 ≤ off ∧ 0 ≤ len ∧ off + len ≤ (mem.length : Int) then
    some ((mem.drop off.toNat).take len.toNat)
  else none

/-- merge_text_image: run the header loop, then stream the temporary output
as the C code does with its three write calls: mem[0, textOffset), then the
captured text image (text_len bytes), then st_size - textOffset bytes
starting at mem + nextOffset.  found_text = 0 is the error return.  The
in-place patch of the header array inside the mapping is kept separate from
the raw byte image here; the refuted property concerns only the chunk
boundaries of the stream. -/
def merge_text_image (phdrs : List Phdr) (mem : List Nat) (text_addr : Int)
    (text_image : List Nat) : Option (List Nat) :=
  match shlibLoop text_addr (text_image.length : Int) phdrs none with
  | none => none
  | some (_, none) => none
  | some (_, some (textOffset, nextOffset)) =>
    match readBytes mem 0 textOffset,
        readBytes mem nextOffset ((mem.length : Int) - textOffset) with
    | some a, some c => some (a ++ text_image ++ c)
    | _, _ => none

/-- merge_exe_text_into_core: the textVaddr = 0 pre-check, the header loop,
then the three writes, the third being st_size - textOffset bytes starting
at mem + dataOffset.  When the loop never matched, textOffset and
dataOffset keep their C initial value 0. -/
def merge_exe_text_into_core (phdrs : List Phdr) (mem : List Nat) (textVaddr : Int)
    (textseg : List Nat) : Option (List Nat) :=
  if textVaddr = 0 then none
  else
    match exeLoop (textseg.length : Int) textVaddr 0 none none false phdrs with
    | none => none
    | some (_, acc) =>
      let off := acc.getD (0, 0)
      match readBytes mem 0 off.1, readBytes mem off.2 ((mem.length : Int) - off.1) with
      | some a, some c => some (a ++ textseg ++ c)
      | _, _ => none

/-- Demo core for the text-merge stream property: three program headers
(note, text, data) inside a 48-byte core image; the text header sits at
file offset 16 and its successor at 32. -/
def c1Phdrs : List Phdr :=
  [⟨PT_NOTE, 0, 4, 0, 336, 0⟩,
   ⟨PT_LOAD, 5, 16, 4096, 16, 8192⟩,
   ⟨PT_LOAD, 6, 32, 16384, 16, 16⟩]

/-- Demo 48-byte pre-merge core image. -/
def c1Mem : List Nat := List.replicate 48 7

/-- Demo captured text bytes (20 bytes). -/
def c1Text : List Nat := List.replicate 20 1

/-! Note parsing (parse_notes_area). -/

/-- One decoded note entry: the three 32-bit header words and the
descriptor bytes. -/
structure ElfNote where
  n_namesz : Nat
  n_descsz : Nat
  n_type : Nat
  desc : List Nat
deriving DecidableEq

/-- Four-byte alignment, the C expression (x + 3) with the two low bits
cleared. -/
def align4 (n : Nat) : Nat := (n + 3) / 4 * 4

/-- Modelled from the spec: the ELFNOTE_NEXT pointer step used by
parse_notes_area lives in include/ecfs.h, which is not under src.  Per the
spec each entry has a header of three 32-bit words (12 bytes) followed by
the name and then the descriptor, and the next entry begins at
align4(name_end + descsz). -/
def elfnote_next (pos : Nat) (e : ElfNote) : Nat :=
  align4 (pos + 12 + e.n_namesz + e.n_descsz)

/-- Byte positions of the successive note entries visited by the note walk
of parse_notes_area, starting from a given position. -/
def notePositions (pos : Nat) : List ElfNote → List Nat
  | [] => []
  | e :: t => pos :: notePositions (elfnote_next pos e) t

def NT_PRSTATUS : Nat := 1
def NT_FPREGSET : Nat := 2
def NT_PRPSINFO : Nat := 3
def NT_AUXV : Nat := 6
def NT_SIGINFO : Nat := 0x53494749
def NT_FILE : Nat := 0x46494c45

/-- sizeof(struct elf_prstatus) on x86_64 glibc. -/
def sizeof_elf_prstatus : Nat := 336

/-- sizeof(struct elf_prpsinfo) on x86_64 glibc. -/
def sizeof_elf_prpsinfo : Nat := 136

/-- sizeof(siginfo_t) on x86_64 glibc. -/
def sizeof_siginfo_t : Nat := 128

/-- sizeof(elf_fpregset_t) on x86_64 glibc. -/
def sizeof_elf_fpregset_t : Nat := 512

/-- The notedesc_t fields written by parse_notes_area.  Descriptor
payloads are kept as raw byte lists; thread_core_info slots appear in
threads in order of arrival, the first doubling as the primary prstatus. -/
structure NoteDesc where
  thread_count : Nat
  prstatus : Option (List Nat)
  threads : List (List Nat)
  psinfo : Option (List Nat)
  siginfo : Option (List Nat)
  auxv : Option (List Nat)
  auxv_size : Nat
  nt_files : Option (List Nat)
  fpu : Option (List Nat)
deriving DecidableEq

def initNoteDesc : NoteDesc := ⟨0, none, [], none, none, none, 0, none, none⟩

/-- The switch body of parse_notes_area for one note entry.  Wrong-sized
PRSTATUS, PRPSINFO, SIGINFO and FPREGSET entries break out without any
effect; unknown types fall through the switch unchanged.  The NT_FILE
branch stores the raw descriptor (the parse_nt_files decoding is not
needed by the claims settled here). -/
def processNote (d : NoteDesc) (n : ElfNote) : NoteDesc :=
  if n.n_type = NT_PRSTATUS then
    if ¬ n.n_descsz = sizeof_elf_prstatus then d
    else if d.thread_count = 0 then
      { d with prstatus := some n.desc, threads := d.threads ++ [n.desc],
               thread_count := d.thread_count + 1 }
    else
      { d with threads := d.threads ++ [n.desc], thread_count := d.thread_count + 1 }
  else if n.n_type = NT_PRPSINFO then
    if ¬ n.n_descsz = sizeof_elf_prpsinfo then d
    else { d with psinfo := some n.desc }
  else if n.n_type = NT_SIGINFO then
    if ¬ n.n_descsz = sizeof_siginfo_t then d
    else { d with siginfo := some n.desc }
  else if n.n_type = NT_AUXV then
    { d with auxv := some n.desc, auxv_size := n.n_descsz }
  else if n.n_type = NT_FILE then
    { d with nt_files := some n.desc }
  else if n.n_type = NT_FPREGSET then
    if ¬ n.n_descsz = sizeof_elf_fpregset_t then d
    else { d with fpu := some n.desc }
  else d

/-- parse_notes_area over the sequence of note entries of the region. -/
def parse_notes_area (l : List ElfNote) : NoteDesc :=
  l.foldl processNote initNoteDesc

/-! Personality bits (build_elf_stats, parse_orig_phdrs, check_for_pie,
check_for_stripped_shdr). -/

/-- Modelled from the spec: the personality bit values come from
include/ecfs.h, which is not under src; the spec specifies a bitset over
STATIC, PIE, HEURISTICS and STRIPPED_SHDRS, modelled as distinct bits. -/
def ELF_STATIC : Nat := 1

/-- Modelled from the spec: see ELF_STATIC. -/
def ELF_PIE : Nat := 2

/-- Modelled from the spec: see ELF_STATIC. -/
def ELF_HEURISTICS : Nat := 4

/-- Modelled from the spec: see ELF_STATIC. -/
def ELF_STRIPPED_SHDRS : Nat := 8

/-- The dynlinked counter of parse_orig_phdrs: starting from zero it is
incremented once per PT_INTERP program header of the original executable. -/
def parse_orig_phdrs_dynlinked (phdrs : List Phdr) : Nat :=
  (phdrs.filter (fun p => p.p_type == PT_INTERP)).length

/-- The pie counter of parse_orig_phdrs: starting from zero it is
incremented exactly when the original executable has e_type ET_DYN. -/
def parse_orig_phdrs_pie (e_type : Nat) : Nat :=
  if e_type = ET_DYN then 1 else 0

/-- check_for_pie: scans the original executable program headers and
returns 1 at a PT_LOAD header with PF_X set and p_vaddr zero, else 0. -/
def check_for_pie (phdrs : List Phdr) : Nat :=
  if phdrs.any (fun p => p.p_type == PT_LOAD && p.p_flags &&& PF_X != 0 && p.p_vaddr == 0)
  then 1 else 0

/-- check_for_stripped_shdr: returns 1 when e_shnum is 0 or e_shoff is 0
(SHN_UNDEF), else 0. -/
def check_for_stripped_shdr (e_shnum e_shoff : Nat) : Nat :=
  if e_shnum = 0 ∨ e_shoff = 0 then 1 else 0

/-- build_elf_stats: the personality bitset assembled from the dynlinked
and pie counters, the heuristics option and the stripped flag. -/
def build_elf_stats (dynlinked pie : Nat) (heuristics : Bool) (stripped : Nat) : Nat :=
  (if dynlinked = 0 then ELF_STATIC else 0) |||
  (if ¬ pie = 0 then ELF_PIE else 0) |||
  (if heuristics then ELF_HEURISTICS else 0) |||
  (if ¬ stripped = 0 then ELF_STRIPPED_SHDRS else 0)

/-- Modelled from the spec: the wiring of the personality inputs lives in
the main driver, which is not under src.  The recorded bits take the
dynlinked and pie values from parse_orig_phdrs and the stripped flag from
check_for_stripped_shdr applied to the original executable header. -/
def personality_of (phdrs : List Phdr) (e_type e_shnum e_shoff : Nat)
    (heuristics : Bool) : Nat :=
  build_elf_stats (parse_orig_phdrs_dynlinked phdrs) (parse_orig_phdrs_pie e_type)
    heuristics (check_for_stripped_shdr e_shnum e_shoff)

/-- Demo original executable of type ET_DYN whose only executable LOAD
segment sits at vaddr 0x1000, not 0. -/
def c5Phdrs : List Phdr := [⟨PT_LOAD, 5, 0, 4096, 1280, 1280⟩]

/-! Section finalisation and symbol reconstruction
(build_local_symtab_and_finalize). -/

/-- A section header as read back by build_local_symtab_and_finalize: the
name resolved through the section string table, plus the sh_offset and
sh_size fields it inspects or patches. -/
structure Shdr where
  name : String
  sh_offset : Nat
  sh_size : Nat
deriving DecidableEq

/-- sizeof(Elf64_Sym). -/
def sizeof_Sym : Nat := 24

/-- sizeof(Elf64_Addr), the native word size. -/
def sizeof_Addr : Nat := 8

def strSymtab : String := ".symtab"
def strStrtab : String := ".strtab"
def strDynsym : String := ".dynsym"
def strGotPlt : String := ".got.plt"

/-- The first section-header loop of build_local_symtab_and_finalize:
patches the .symtab header to the appended symbol array (offset so, size
ss), patches the .strtab header to the appended string table (offset sl,
size sz), and records dsymcount from the .dynsym size; the accumulator is
dsymcount (0 before the loop). -/
def finalize_pass1 (so ss sl sz : Nat) : List Shdr → Nat → List Shdr × Nat
  | [], d => ([], d)
  | s :: rest, d =>
    if s.name = strSymtab then
      let r := finalize_pass1 so ss sl sz rest d
      ({ s with sh_offset := so, sh_size := ss } :: r.1, r.2)
    else if s.name = strStrtab then
      let r := finalize_pass1 so ss sl sz rest d
      ({ s with sh_offset := sl, sh_size := sz } :: r.1, r.2)
    else if s.name = strDynsym then
      let r := finalize_pass1 so ss sl sz rest (s.sh_size / sizeof_Sym)
      (s :: r.1, r.2)
    else
      let r := finalize_pass1 so ss sl sz rest d
      (s :: r.1, r.2)

/-- The effect of finalize_pass1 on a single header (the list part of the
loop is this map). -/
def patchOne (so ss sl sz : Nat) (s : Shdr) : Shdr :=
  if s.name = strSymtab then { s with sh_offset := so, sh_size := ss }
  else if s.name = strStrtab then { s with sh_offset := sl, sh_size := sz }
  else s

/-- The second section-header loop of build_local_symtab_and_finalize:
resizes the first .got.plt header to dsymcount words plus the three
reserved entries, then breaks. -/
def resize_got_plt (d : Nat) : List Shdr → List Shdr
  | [] => []
  | s :: rest =>
    if s.name = strGotPlt then
      { s with sh_size := d * sizeof_Addr + 3 * sizeof_Addr } :: rest
    else s :: resize_got_plt d rest

/-- The digit characters produced by the printf conversion for lowercase
hex: 0 to 9 map to the decimal digit characters, 10 to 15 to the letters
a to f. -/
def hexDigitChar (n : Nat) : Char :=
  if n < 10 then Char.ofNat (48 + n) else Char.ofNat (87 + n)

/-- Little-endian base-16 digit list of n, with explicit fuel so that the
recursion is structural; fuel at least n suffices. -/
def hexRevFuel : Nat → Nat → List Nat
  | 0, _ => []
  | _ + 1, 0 => []
  | fuel + 1, n + 1 => (n + 1) % 16 :: hexRevFuel fuel ((n + 1) / 16)

/-- Value of a little-endian base-16 digit list. -/
def unhex : List Nat → Nat
  | [] => 0
  | d :: t => d + 16 * unhex t

/-- The characters printed by the %lx conversion for n: most significant
digit first, lowercase, and a single 0 for n = 0. -/
def hexChars (n : Nat) : List Char :=
  if n = 0 then ['0'] else ((hexRevFuel n n).map hexDigitChar).reverse

/-- The symbol name fabricated for a reconstructed function at addr:
sub_ followed by the lowercase hex of addr. -/
def sub_name (addr : Nat) : List Char :=
  's' :: 'u' :: 'b' :: '_' :: hexChars addr

/-- One record of the exception-frame function table consumed by the
symbol reconstructor. -/
structure fde_func_data where
  addr : Nat
  size : Nat
deriving DecidableEq

/-- An Elf64_Sym as fabricated by build_local_symtab_and_finalize. -/
structure ElfSym where
  st_name : Nat
  st_info : Nat
  st_other : Nat
  st_shndx : Nat
  st_value : Nat
  st_size : Nat
deriving DecidableEq

/-- The symbol-fabrication loop of build_local_symtab_and_finalize: for
each function record it emits a symbol with st_value the address, st_size
the size, st_info 18 (STB_GLOBAL shifted by 4 plus STT_FUNC), st_shndx the
.text section index, st_name the running string-table offset, and appends
the sub_ name and its NUL terminator to the private string table.  off is
symstroff. -/
def build_local_symtab (tidx : Nat) : List fde_func_data → Nat → List ElfSym × List Char
  | [], _ => ([], [])
  | f :: rest, off =>
    let nm := sub_name f.addr
    let r := build_local_symtab tidx rest (off + nm.length + 1)
    (⟨off, 18, 0, tidx, f.addr, f.size⟩ :: r.1, nm ++ '\x00' :: r.2)

/-- Reading the NUL-terminated C string stored at a given offset of a
string table. -/
def c_str_at (tab : List Char) (off : Nat) : List Char :=
  (tab.drop off).takeWhile (fun c => c != '\x00')

/-! Socket resolution (fill_sock_info). -/

/-- One parsed row of a /proc/net table: local and remote address and
port, and the socket inode. -/
structure SockEnt where
  local_addr : Nat
  local_port : Nat
  rem_addr : Nat
  rem_port : Nat
  inode : Nat
deriving DecidableEq

/-- The socket-related fields of fd_info_t that fill_sock_info writes. -/
structure SockInfo where
  src_addr : Nat
  dst_addr : Nat
  src_port : Nat
  dst_port : Nat
  net : Nat
deriving DecidableEq

/-- Modelled from the spec: the NET_TCP enumerator of the header, not
under src; any nonzero value distinct from NET_UDP. -/
def NET_TCP : Nat := 1

/-- Modelled from the spec: the NET_UDP enumerator, see NET_TCP. -/
def NET_UDP : Nat := 2

/-- One while loop of fill_sock_info over a parsed table: every row whose
inode matches overwrites the socket fields and the protocol tag. -/
def scanSockTable (netval inode : Nat) (tbl : List SockEnt) (fi : SockInfo) : SockInfo :=
  tbl.foldl
    (fun fi e =>
      if e.inode = inode then
        { src_addr := e.local_addr, dst_addr := e.rem_addr,
          src_port := e.local_port, dst_port := e.rem_port, net := netval }
      else fi) fi

/-- fill_sock_info: the TCP table is scanned first, then the UDP table is
scanned unconditionally. -/
def fill_sock_info (tcp udp : List SockEnt) (inode : Nat) (fi : SockInfo) : SockInfo :=
  scanSockTable NET_UDP inode udp (scanSockTable NET_TCP inode tcp fi)

/-- Demo TCP table containing inode 77. -/
def c8Tcp : List SockEnt := [⟨0x0100007f, 8080, 0x0100000a, 443, 77⟩]

/-- Demo UDP table also containing inode 77. -/
def c8Udp : List SockEnt := [⟨0x0200007f, 53, 0x0300000a, 54, 77⟩]

/-- Zero-initialised fd socket info. -/
def c8Init : SockInfo := ⟨0, 0, 0, 0, 0⟩

/-! Maps-file parsing (get_maps) and live-memory reads
(get_segment_from_pmem). -/

/-- Whether the first list is an initial segment of the second. -/
def isPrefixC : List Char → List Char → Bool
  | [], _ => true
  | _ :: _, [] => false
  | a :: as, b :: bs => a == b && isPrefixC as bs

/-- The strstr test: does the needle occur contiguously in the haystack. -/
def hasSubSeq (needle : List Char) : List Char → Bool
  | [] => isPrefixC needle []
  | c :: t => isPrefixC needle (c :: t) || hasSubSeq needle t

/-- The suffix starting at the first occurrence of c (strchr), or the
empty list when c is absent. -/
def dropUntil (c : Char) : List Char → List Char
  | [] => []
  | x :: xs => if x == c then x :: xs else dropUntil c xs

/-- The characters after the first occurrence of c (strchr plus one). -/
def afterFirst (c : Char) (l : List Char) : List Char := (dropUntil c l).drop 1

/-- The suffix starting at the last occurrence of c (strrchr), or none. -/
def strrchrSuffix (c : Char) : List Char → Option (List Char)
  | [] => none
  | x :: xs =>
    match strrchrSuffix c xs with
    | some s => some s
    | none => if x == c then some (x :: xs) else none

/-- Lowercase hexadecimal digit test, as the maps addresses use. -/
def isHexCharDigit (c : Char) : Bool := c.isDigit || ('a' ≤ c && c ≤ 'f')

/-- Value of one lowercase hexadecimal digit character. -/
def hexCharVal (c : Char) : Nat := if c.isDigit then c.toNat - 48 else c.toNat - 87

/-- strtoul with base 16: the leading hexadecimal digits of the text. -/
def parseHexNat (l : List Char) : Nat :=
  (l.takeWhile isHexCharDigit).foldl (fun a c => a * 16 + hexCharVal c) 0

/-- atoi: skip leading blanks, then the leading decimal digits. -/
def parseDecNat (l : List Char) : Nat :=
  ((l.dropWhile (fun c => c == ' ')).takeWhile (fun c => c.isDigit)).foldl
    (fun a c => a * 10 + (c.toNat - 48)) 0

/-- One mappings_t record as get_maps fills it: classification counters,
segment flags and the recorded file name. -/
structure MapRec where
  base : Nat
  size : Nat
  elfmap : Nat
  textbase : Nat
  heap : Nat
  stack : Nat
  thread_stack : Nat
  stack_tid : Nat
  padding : Nat
  vdso : Nat
  vsyscall : Nat
  shlib : Nat
  filemap_exe : Nat
  filemap : Nat
  anonmap_exe : Nat
  special : Nat
  p_flags : Nat
  filename : Option (List Char)
deriving DecidableEq

/-- An all-zero mappings record. -/
def emptyMap : MapRec := ⟨0, 0, 0, 0, 0, 0, 0, 0, 0, 0, 0, 0, 0, 0, 0, 0, 0, none⟩

def patDashP : List Char := "---p".data
def patHeap : List Char := "[heap]".data
def patStack : List Char := "[stack]".data
def patStackColon : List Char := "[stack:".data
def patVdso : List Char := "[vdso]".data
def patVsyscall : List Char := "[vsyscall]".data
def patSo : List Char := ".so".data
def patRP : List Char := "r--p".data
def patRWP : List Char := "rw-p".data
def patWP : List Char := "-w-p".data
def patXP : List Char := "--xp".data
def patRXP : List Char := "r-xp".data
def patWXP : List Char := "-wxp".data
def patRWXP : List Char := "rwxp".data
def patRS : List Char := "r--s".data
def patRWS : List Char := "rw-s".data
def patWS : List Char := "-w-s".data
def patXS : List Char := "--xs".data
def patRXS : List Char := "r-xs".data
def patWXS : List Char := "-wxs".data
def patRWXS : List Char := "rwxs".data

/-- The classification if-chain of one get_maps iteration, applied to the
line text tmp at line index lc.  The thread-stack branch mirrors the C
code exactly: the characters are collected from after the first colon of
the whole line up to the first closing bracket, the loop counter i ends
up as their count, and the update is applied to the record at index i
(not lc), with the tid taken by atoi from the collected characters. -/
def classifyLine (exePath : List Char) (maps : List MapRec) (lc : Nat)
    (tmp : List Char) : List MapRec :=
  let chp := strrchrSuffix '/' tmp
  if (match chp with | some s => s.drop 1 == exePath | none => false) = true then
    if hasSubSeq patDashP tmp then maps
    else
      let m := maps.getD lc emptyMap
      let m := { m with filename := some (dropUntil '/' tmp), elfmap := m.elfmap + 1 }
      let m := if hasSubSeq patRXP tmp || hasSubSeq patRWXP tmp then
          { m with textbase := m.textbase + 1 } else m
      maps.set lc m
  else if hasSubSeq patHeap tmp then
    let m := maps.getD lc emptyMap
    maps.set lc { m with heap := m.heap + 1 }
  else if hasSubSeq patStack tmp then
    let m := maps.getD lc emptyMap
    maps.set lc { m with stack := m.stack + 1 }
  else if hasSubSeq patStackColon tmp then
    let tid := (afterFirst ':' tmp).takeWhile (fun c => c != ']')
    let i := tid.length
    let m := maps.getD i emptyMap
    maps.set i { m with thread_stack := m.thread_stack + 1, stack_tid := parseDecNat tid }
  else if hasSubSeq patDashP tmp then
    let m := maps.getD lc emptyMap
    maps.set lc { m with padding := m.padding + 1 }
  else if hasSubSeq patVdso tmp then
    let m := maps.getD lc emptyMap
    maps.set lc { m with vdso := m.vdso + 1 }
  else if hasSubSeq patVsyscall tmp then
    let m := maps.getD lc emptyMap
    maps.set lc { m with vsyscall := m.vsyscall + 1 }
  else
    match chp with
    | some p =>
      if hasSubSeq patSo p then
        let m := maps.getD lc emptyMap
        maps.set lc { m with shlib := m.shlib + 1, filename := some (dropUntil '/' tmp) }
      else if hasSubSeq patRWXP p || hasSubSeq patRXP p then
        let m := maps.getD lc emptyMap
        maps.set lc { m with filemap_exe := m.filemap_exe + 1,
                             filename := some (dropUntil '/' tmp) }
      else
        let m := maps.getD lc emptyMap
        maps.set lc { m with filemap := m.filemap + 1,
                             filename := some (dropUntil '/' tmp) }
    | none =>
      if hasSubSeq patRWXP tmp || hasSubSeq patRXP tmp then
        let m := maps.getD lc emptyMap
        maps.set lc { m with anonmap_exe := m.anonmap_exe + 1 }
      else maps

/-- The permission if-chain of one get_maps iteration: the private
permission strings set p_flags at index lc, the shared ones bump the
special counter. -/
def setPerms (maps : List MapRec) (lc : Nat) (tmp : List Char) : List MapRec :=
  let m := maps.getD lc emptyMap
  if hasSubSeq patRP tmp then maps.set lc { m with p_flags := PF_R }
  else if hasSubSeq patRWP tmp then maps.set lc { m with p_flags := PF_R ||| PF_W }
  else if hasSubSeq patWP tmp then maps.set lc { m with p_flags := PF_W }
  else if hasSubSeq patXP tmp then maps.set lc { m with p_flags := PF_X }
  else if hasSubSeq patRXP tmp then maps.set lc { m with p_flags := PF_X ||| PF_R }
  else if hasSubSeq patWXP tmp then maps.set lc { m with p_flags := PF_X ||| PF_W }
  else if hasSubSeq patRWXP tmp then maps.set lc { m with p_flags := PF_X ||| PF_W ||| PF_R }
  else if hasSubSeq patRS tmp || hasSubSeq patRWS tmp || hasSubSeq patWS tmp ||
      hasSubSeq patXS tmp || hasSubSeq patRXS tmp || hasSubSeq patWXS tmp ||
      hasSubSeq patRWXS tmp then
    maps.set lc { m with special := m.special + 1 }
  else maps

/-- One full iteration of the get_maps line loop: parse base and size from
the address range, reset elfmap, then classify, then set permissions. -/
def get_maps_line (exePath : List Char) (maps : List MapRec) (lc : Nat)
    (tmp : List Char) : List MapRec :=
  let base := parseHexNat tmp
  let size := parseHexNat (afterFirst '-' tmp) - base
  let maps1 := maps.set lc
    { (maps.getD lc emptyMap) with elfmap := 0, base := base, size := size }
  setPerms (classifyLine exePath maps1 lc tmp) lc tmp

/-- Demo maps line at line index 2: a thread stack with tid 1234. -/
def c9Line : List Char := "7f0000-7f1000 rw-p 00000000 08:01 2345 [stack:1234]".data

/-- Demo executable basename. -/
def c9Path : List Char := "demo".data

/-- Demo mappings array of 21 zeroed records. -/
def c9Maps : List MapRec := List.replicate 21 emptyMap

/-- Events surrounding a live-memory read in get_segment_from_pmem: the
buffer allocation, the stop and continue signals and the pread against
the process memory. -/
inductive PmemEv where
  | allocEv (len : Nat)
  | stopEv
  | contEv
  | readEv (addr len : Nat)
deriving DecidableEq

/-- read_pmem: a positional read of len bytes at vaddr from the live
process image (osRead gives the bytes the kernel returns); any short read
is the error return -1. -/
def read_pmem (osRead : Nat → Nat → List Nat) (addr len : Nat) : Option (List Nat) :=
  let bytes := osRead addr len
  if ¬ bytes.length = len then none else some bytes

/-- get_segment_from_pmem: scan the mappings for the first one whose
range contains vaddr; allocate a buffer of the full mapping size, stop
the target, read the whole mapping starting at its base, continue the
target, and return the read result.  Without a containing mapping the
scan returns -1 having performed no action. -/
def get_segment_from_pmem (vaddr : Nat) (osRead : Nat → Nat → List Nat) :
    List MapRec → Option (List Nat) × List PmemEv
  | [] => (none, [])
  | m :: rest =>
    if m.base ≤ vaddr ∧ vaddr < m.base + m.size then
      (read_pmem osRead m.base m.size,
       [PmemEv.allocEv m.size, PmemEv.stopEv, PmemEv.readEv m.base m.size, PmemEv.contEv])
    else get_segment_from_pmem vaddr osRead rest

/-! Theorems. -/

/-- C3: for every note entry in the core note region, the note walk
advances so that the next entry begins at align4(name_end + descsz):
starting from a 4-aligned entry position, the stride from one entry
header to the next is the 12-byte header size plus n_namesz plus
n_descsz, rounded up to 4-byte alignment. -/
theorem C3_note_walk_stride (pos : Nat) (e : ElfNote) (t : List ElfNote) (h : 4 ∣ pos) :
    elfnote_next pos e = pos + align4 (12 + e.n_namesz + e.n_descsz) ∧
    notePositions pos (e :: t) =
      pos :: notePositions (pos + align4 (12 + e.n_namesz + e.n_descsz)) t := by
  obtain ⟨k, rfl⟩ := h
  have h1 : elfnote_next (4 * k) e = 4 * k + align4 (12 + e.n_namesz + e.n_descsz) := by
    unfold elfnote_next align4
    omega
  exact ⟨h1, by simp only [notePositions, h1]⟩

/-- Witness for C3 at position 8 with an entry of name size 5 and
descriptor size 2. -/
theorem C3_note_walk_stride_witness :
    (4 ∣ 8) ∧
    (elfnote_next 8 ⟨5, 2, 1, []⟩ = 8 + align4 (12 + 5 + 2) ∧
      notePositions 8 (⟨5, 2, 1, []⟩ :: [⟨4, 4, 2, []⟩]) =
        8 :: notePositions (8 + align4 (12 + 5 + 2)) [⟨4, 4, 2, []⟩]) :=
  ⟨by decide, C3_note_walk_stride 8 ⟨5, 2, 1, []⟩ [⟨4, 4, 2, []⟩] (by decide)⟩

/-- C4: an NT_PRSTATUS note entry whose descriptor size differs from
sizeof(struct elf_prstatus) is skipped: it leaves the note descriptor
unchanged, thread_count is not incremented, parsing of the remaining
entries continues as if the entry were absent, and an entry of unknown
type is likewise skipped without effect. -/
theorem C4_prstatus_size_guard (l1 l2 : List ElfNote) (e u : ElfNote) (d : NoteDesc)
    (ht : e.n_type = NT_PRSTATUS) (hsz : ¬ e.n_descsz = sizeof_elf_prstatus)
    (hu1 : ¬ u.n_type = NT_PRSTATUS) (hu2 : ¬ u.n_type = NT_PRPSINFO)
    (hu3 : ¬ u.n_type = NT_SIGINFO) (hu4 : ¬ u.n_type = NT_AUXV)
    (hu5 : ¬ u.n_type = NT_FILE) (hu6 : ¬ u.n_type = NT_FPREGSET) :
    processNote d e = d ∧ (processNote d e).thread_count = d.thread_count ∧
    parse_notes_area (l1 ++ e :: l2) = parse_notes_area (l1 ++ l2) ∧
    processNote d u = d := by
  have hgen : ∀ d0 : NoteDesc, processNote d0 e = d0 := by
    intro d0
    simp [processNote, ht, hsz]
  refine ⟨hgen d, by rw [hgen d], ?_, ?_⟩
  · unfold parse_notes_area
    rw [List.foldl_append, List.foldl_append, List.foldl_cons, hgen]
  · simp [processNote, hu1, hu2, hu3, hu4, hu5, hu6]

/-- Witness for C4: a wrong-sized PRSTATUS entry of descriptor size 12
between two well-formed entries, and an unknown entry of type 42. -/
theorem C4_prstatus_size_guard_witness :
    (⟨5, 12, 1, [9]⟩ : ElfNote).n_type = NT_PRSTATUS ∧
    ¬ (⟨5, 12, 1, [9]⟩ : ElfNote).n_descsz = sizeof_elf_prstatus ∧
    ¬ (⟨5, 4, 42, []⟩ : ElfNote).n_type = NT_PRSTATUS ∧
    ¬ (⟨5, 4, 42, []⟩ : ElfNote).n_type = NT_PRPSINFO ∧
    ¬ (⟨5, 4, 42, []⟩ : ElfNote).n_type = NT_SIGINFO ∧
    ¬ (⟨5, 4, 42, []⟩ : ElfNote).n_type = NT_AUXV ∧
    ¬ (⟨5, 4, 42, []⟩ : ElfNote).n_type = NT_FILE ∧
    ¬ (⟨5, 4, 42, []⟩ : ElfNote).n_type = NT_FPREGSET ∧
    (processNote initNoteDesc ⟨5, 12, 1, [9]⟩ = initNoteDesc ∧
      (processNote initNoteDesc ⟨5, 12, 1, [9]⟩).thread_count = initNoteDesc.thread_count ∧
      parse_notes_area ([⟨5, 336, 1, List.replicate 336 3⟩] ++ ⟨5, 12, 1, [9]⟩ :: [⟨5, 8, 6, [1, 2]⟩]) =
        parse_notes_area ([⟨5, 336, 1, List.replicate 336 3⟩] ++ [⟨5, 8, 6, [1, 2]⟩]) ∧
      processNote initNoteDesc ⟨5, 4, 42, []⟩ = initNoteDesc) :=
  ⟨by decide, by decide, by decide, by decide, by decide, by decide, by decide, by decide,
   C4_prstatus_size_guard [⟨5, 336, 1, List.replicate 336 3⟩] [⟨5, 8, 6, [1, 2]⟩]
     ⟨5, 12, 1, [9]⟩ ⟨5, 4, 42, []⟩ initNoteDesc (by decide) (by decide) (by decide)
     (by decide) (by decide) (by decide) (by decide) (by decide)⟩

/-- C8 is wrong on the code: with socket inode 77 present in both parsed
tables, the TCP scan does match (protocol tag TCP, source port 8080), yet
fill_sock_info then runs the UDP scan unconditionally and the UDP row
overwrites the result, leaving protocol UDP and the UDP ports, against
the claim that a TCP match is not overridden. -/
theorem C8_sock_scan_code_bug :
    (scanSockTable NET_TCP 77 c8Tcp c8Init).net = NET_TCP ∧
    (scanSockTable NET_TCP 77 c8Tcp c8Init).src_port = 8080 ∧
    (fill_sock_info c8Tcp c8Udp 77 c8Init).net = NET_UDP ∧
    (fill_sock_info c8Tcp c8Udp 77 c8Init).src_port = 53 ∧
    (fill_sock_info c8Tcp c8Udp 77 c8Init).dst_port = 54 := by decide

/-- C9 is wrong on the code: for the maps line at line index 2 reading
7f0000-7f1000 rw-p 00000000 08:01 2345 [stack:1234], the characters are
collected from the first colon of the whole line (the one inside the
device field 08:01) up to the closing bracket, 19 of them, so the code
bumps thread_stack of record 19 and stores 1 (atoi of 01 2345 ...) as
the tid, while the record at the line index 2 is left unclassified
(it only receives the rw-p permission flags). -/
theorem C9_thread_stack_code_bug :
    ((get_maps_line c9Path c9Maps 2 c9Line).getD 19 emptyMap).thread_stack = 1 ∧
    ((get_maps_line c9Path c9Maps 2 c9Line).getD 19 emptyMap).stack_tid = 1 ∧
    ((get_maps_line c9Path c9Maps 2 c9Line).getD 2 emptyMap).thread_stack = 0 ∧
    ((get_maps_line c9Path c9Maps 2 c9Line).getD 2 emptyMap).stack_tid = 0 ∧
    ((get_maps_line c9Path c9Maps 2 c9Line).getD 2 emptyMap).p_flags = 6 := by decide

/-- C10: get_segment_from_pmem returns -1 with no signal delivery, no
allocation and no read when vaddr lies in no mapping; when vaddr lies in
a mapping (the first containing one), it allocates the full mapping size,
reads the entire mapping starting at its base (not at vaddr) inside a
stop/continue window, and returns the bytes read, or -1 when the read is
short. -/
theorem C10_get_segment_behavior (vaddr : Nat) (osRead : Nat → Nat → List Nat)
    (maps l1 l2 : List MapRec) (m : MapRec)
    (hnone : ∀ r ∈ maps, ¬ (r.base ≤ vaddr ∧ vaddr < r.base + r.size))
    (hpre : ∀ r ∈ l1, ¬ (r.base ≤ vaddr ∧ vaddr < r.base + r.size))
    (hm : m.base ≤ vaddr ∧ vaddr < m.base + m.size) :
    get_segment_from_pmem vaddr osRead maps = (none, []) ∧
    get_segment_from_pmem vaddr osRead (l1 ++ m :: l2) =
      (read_pmem osRead m.base m.size,
       [PmemEv.allocEv m.size, PmemEv.stopEv, PmemEv.readEv m.base m.size, PmemEv.contEv]) ∧
    ((osRead m.base m.size).length = m.size →
      (get_segment_from_pmem vaddr osRead (l1 ++ m :: l2)).1 = some (osRead m.base m.size)) ∧
    (¬ (osRead m.base m.size).length = m.size →
      (get_segment_from_pmem vaddr osRead (l1 ++ m :: l2)).1 = none) := by
  have h1 : ∀ L : List MapRec, (∀ r ∈ L, ¬ (r.base ≤ vaddr ∧ vaddr < r.base + r.size)) →
      get_segment_from_pmem vaddr osRead L = (none, []) := by
    intro L
    induction L with
    | nil => intro _; rfl
    | cons a t ih =>
      intro hL
      have ha := hL a (List.mem_cons_self a t)
      simp only [get_segment_from_pmem]
      rw [if_neg ha]
      exact ih (fun r hr => hL r (List.mem_cons_of_mem a hr))
  have h2 : ∀ L : List MapRec, (∀ r ∈ L, ¬ (r.base ≤ vaddr ∧ vaddr < r.base + r.size)) →
      get_segment_from_pmem vaddr osRead (L ++ m :: l2) =
        (read_pmem osRead m.base m.size,
         [PmemEv.allocEv m.size, PmemEv.stopEv, PmemEv.readEv m.base m.size,
          PmemEv.contEv]) := by
    intro L
    induction L with
    | nil =>
      intro _
      simp only [List.nil_append, get_segment_from_pmem]
      rw [if_pos hm]
    | cons a t ih =>
      intro hL
      have ha := hL a (List.mem_cons_self a t)
      simp only [List.cons_append, get_segment_from_pmem]
      rw [if_neg ha]
      exact ih (fun r hr => hL r (List.mem_cons_of_mem a hr))
  refine ⟨h1 maps hnone, h2 l1 hpre, ?_, ?_⟩
  · intro h
    rw [h2 l1 hpre]
    simp [read_pmem, h]
  · intro h
    rw [h2 l1 hpre]
    simp [read_pmem, h]

/-- Witness for C10: vaddr 5 sits in the second mapping (base 4, size 8);
the first mapping (base 0, size 2) does not contain it, and a disjoint
list (base 100) yields the no-action error return. -/
theorem C10_get_segment_behavior_witness :
    (∀ r ∈ [{ emptyMap with base := 100, size := 4 }], ¬ (r.base ≤ 5 ∧ 5 < r.base + r.size)) ∧
    (∀ r ∈ [{ emptyMap with base := 0, size := 2 }], ¬ (r.base ≤ 5 ∧ 5 < r.base + r.size)) ∧
    (({ emptyMap with base := 4, size := 8 } : MapRec).base ≤ 5 ∧
      5 < ({ emptyMap with base := 4, size := 8 } : MapRec).base +
        ({ emptyMap with base := 4, size := 8 } : MapRec).size) ∧
    (get_segment_from_pmem 5 (fun _ len => List.replicate len 0)
        [{ emptyMap with base := 100, size := 4 }] = (none, []) ∧
      get_segment_from_pmem 5 (fun _ len => List.replicate len 0)
        ([{ emptyMap with base := 0, size := 2 }] ++ { emptyMap with base := 4, size := 8 } :: []) =
        (read_pmem (fun _ len => List.replicate len 0) 4 8,
         [PmemEv.allocEv 8, PmemEv.stopEv, PmemEv.readEv 4 8, PmemEv.contEv]) ∧
      (((fun _ len => List.replicate len 0) 4 8 : List Nat).length = 8 →
        (get_segment_from_pmem 5 (fun _ len => List.replicate len 0)
          ([{ emptyMap with base := 0, size := 2 }] ++
            { emptyMap with base := 4, size := 8 } :: [])).1 =
          some ((fun _ len => List.replicate len 0) 4 8)) ∧
      (¬ ((fun _ len => List.replicate len 0) 4 8 : List Nat).length = 8 →
        (get_segment_from_pmem 5 (fun _ len => List.replicate len 0)
          ([{ emptyMap with base := 0, size := 2 }] ++
            { emptyMap with base := 4, size := 8 } :: [])).1 = none)) :=
  ⟨by decide, by decide, by decide,
   C10_get_segment_behavior 5 (fun _ len => List.replicate len 0)
     [{ emptyMap with base := 100, size := 4 }]
     [{ emptyMap with base := 0, size := 2 }] []
     { emptyMap with base := 4, size := 8 } (by decide) (by decide) (by decide)⟩

/-- C5 is wrong on the code at this input: for an original executable of
type ET_DYN whose only executable LOAD sits at vaddr 0x1000 (so
check_for_pie reports 0) and whose header has e_shnum 3 with e_shoff 0,
the recorded personality still has the PIE bit set (it depends only on
e_type) and the STRIPPED_SHDRS bit set (it also fires on e_shoff 0),
refuting the claimed iff conditions. -/
theorem C5_personality_counterexample :
    (personality_of c5Phdrs ET_DYN 3 0 false) &&& ELF_PIE ≠ 0 ∧
    check_for_pie c5Phdrs = 0 ∧
    (personality_of c5Phdrs ET_DYN 3 0 false) &&& ELF_STRIPPED_SHDRS ≠ 0 ∧
    (3 : Nat) ≠ 0 := by decide

/-- C5 amended: in the recorded personality bitset, STATIC is set iff the
original executable has no PT_INTERP program header; PIE is set iff the
original executable has ELF type DYN (the executable-LOAD-at-vaddr-0 test
lives in the separate check_for_pie helper and does not feed the recorded
bit); STRIPPED_SHDRS is set iff e_shnum is zero or e_shoff is zero. -/
theorem C5_personality_amended (phdrs : List Phdr) (e_type e_shnum e_shoff : Nat)
    (heuristics : Bool) :
    ((personality_of phdrs e_type e_shnum e_shoff heuristics) &&& ELF_STATIC ≠ 0 ↔
      ∀ p ∈ phdrs, ¬ p.p_type = PT_INTERP) ∧
    ((personality_of phdrs e_type e_shnum e_shoff heuristics) &&& ELF_PIE ≠ 0 ↔
      e_type = ET_DYN) ∧
    ((personality_of phdrs e_type e_shnum e_shoff heuristics) &&& ELF_STRIPPED_SHDRS ≠ 0 ↔
      (e_shnum = 0 ∨ e_shoff = 0)) := by
  have hstat : (parse_orig_phdrs_dynlinked phdrs = 0) ↔
      ∀ p ∈ phdrs, ¬ p.p_type = PT_INTERP := by
    simp [parse_orig_phdrs_dynlinked, List.length_eq_zero, List.filter_eq_nil_iff]
  unfold personality_of build_elf_stats parse_orig_phdrs_pie check_for_stripped_shdr
  simp only [← hstat]
  by_cases h1 : parse_orig_phdrs_dynlinked phdrs = 0 <;>
    by_cases h2 : e_type = ET_DYN <;>
      by_cases h3 : e_shnum = 0 ∨ e_shoff = 0 <;>
        cases heuristics <;>
          simp [h1, h2, h3, ELF_STATIC, ELF_PIE, ELF_HEURISTICS, ELF_STRIPPED_SHDRS] <;>
            decide

/-- C1 is wrong on the code: in both merge passes the third write call
copies st_size - textOffset bytes starting at mem + nextOffset, not the
bytes of [nextOffset, end), so whenever nextOffset exceeds textOffset the
copied range overruns the pre-merge core by nextOffset - textOffset
bytes.  On the demo core (size 48, textOffset 16, nextOffset 32) both
modelled passes fault on that out-of-range read (none) instead of
producing the claimed concatenation, while the claimed third chunk, of
st_size - nextOffset bytes, is well defined. -/
theorem C1_merge_stream_code_bug :
    merge_text_image c1Phdrs c1Mem 4096 c1Text = none ∧
    merge_exe_text_into_core c1Phdrs c1Mem 4096 c1Text = none ∧
    readBytes c1Mem 32 ((c1Mem.length : Int) - 16) = none ∧
    readBytes c1Mem 32 ((c1Mem.length : Int) - 32) = some (c1Mem.drop 32) := by decide

theorem exeLoop_cons_false_eq (tlen tv : Int) (i : Nat) (dIdx : Option Nat)
    (acc : Option (Int × Int)) (p : Phdr) (rest : List Phdr) :
    exeLoop tlen tv i dIdx acc false (p :: rest) =
      if p.p_vaddr ≤ tv ∧ tv < p.p_vaddr + p.p_memsz then
        match rest with
        | [] => none
        | q :: _ =>
          match exeLoop tlen p.p_vaddr (i + 1) (some (i + 1))
              (some (p.p_offset, q.p_offset)) true rest with
          | none => none
          | some (l, a) => some ({ p with p_filesz := p.p_memsz } :: l, a)
      else if acc.isSome = true ∧ ¬ dIdx = some i then
        match exeLoop tlen tv (i + 1) dIdx acc false rest with
        | none => none
        | some (l, a) => some (shiftPhdr tlen p :: l, a)
      else
        match exeLoop tlen tv (i + 1) dIdx acc false rest with
        | none => none
        | some (l, a) => some (p :: l, a) := rfl

theorem exeLoop_cons_true_eq (tlen tv : Int) (i : Nat) (dIdx : Option Nat)
    (acc : Option (Int × Int)) (p0 : Phdr) (rest : List Phdr) :
    exeLoop tlen tv i dIdx acc true (p0 :: rest) =
      (let p := shiftPhdr tlen p0
       if p.p_vaddr ≤ tv ∧ tv < p.p_vaddr + p.p_memsz then
         match rest with
         | [] => none
         | q :: _ =>
           match exeLoop tlen p.p_vaddr (i + 1) (some (i + 1))
               (some (p.p_offset, q.p_offset)) true rest with
           | none => none
           | some (l, a) => some ({ p with p_filesz := p.p_memsz } :: l, a)
       else if acc.isSome = true ∧ ¬ dIdx = some i then
         match exeLoop tlen tv (i + 1) dIdx acc false rest with
         | none => none
         | some (l, a) => some (shiftPhdr tlen p :: l, a)
       else
         match exeLoop tlen tv (i + 1) dIdx acc false rest with
         | none => none
         | some (l, a) => some (p :: l, a)) := rfl

theorem exeLoop_post_false (tlen tv : Int) (a : Int × Int) :
    ∀ (t : List Phdr) (i j : Nat), j < i →
      (∀ r ∈ t, ¬ (r.p_vaddr ≤ tv ∧ tv < r.p_vaddr + r.p_memsz)) →
      exeLoop tlen tv i (some j) (some a) false t =
        some (t.map (shiftPhdr tlen), some a) := by
  intro t
  induction t with
  | nil => intro i j _ _; rfl
  | cons p rest ih =>
    intro i j hij hL
    have hp := hL p (List.mem_cons_self p rest)
    rw [exeLoop_cons_false_eq]
    rw [if_neg hp, if_pos ⟨rfl, by simp; omega⟩]
    rw [ih (i + 1) j (by omega) (fun r hr => hL r (List.mem_cons_of_mem p hr))]
    simp

theorem exeLoop_post_true (tlen tv : Int) (a : Int × Int) (q : Phdr) (t : List Phdr)
    (i : Nat) (hq : ¬ (q.p_vaddr ≤ tv ∧ tv < q.p_vaddr + q.p_memsz))
    (ht : ∀ r ∈ t, ¬ (r.p_vaddr ≤ tv ∧ tv < r.p_vaddr + r.p_memsz)) :
    exeLoop tlen tv i (some i) (some a) true (q :: t) =
      some (shiftPhdr tlen q :: t.map (shiftPhdr tlen), some a) := by
  have hq2 : ¬ ((shiftPhdr tlen q).p_vaddr ≤ tv ∧
      tv < (shiftPhdr tlen q).p_vaddr + (shiftPhdr tlen q).p_memsz) := by
    simpa [shiftPhdr] using hq
  rw [exeLoop_cons_true_eq]
  simp only []
  rw [if_neg hq2, if_neg (by simp)]
  rw [exeLoop_post_false tlen tv a t (i + 1) i (by omega) ht]

theorem exeLoop_pre (tlen tv : Int) :
    ∀ (l1 : List Phdr) (i : Nat) (l2 : List Phdr),
      (∀ r ∈ l1, ¬ (r.p_vaddr ≤ tv ∧ tv < r.p_vaddr + r.p_memsz)) →
      exeLoop tlen tv i none none false (l1 ++ l2) =
        match exeLoop tlen tv (i + l1.length) none none false l2 with
        | none => none
        | some (l, a) => some (l1 ++ l, a) := by
  intro l1
  induction l1 with
  | nil =>
    intro i l2 _
    simp only [List.nil_append, List.length_nil, Nat.add_zero]
    cases h : exeLoop tlen tv i none none false l2 with
    | none => simp
    | some r => cases r; simp
  | cons p rest ih =>
    intro i l2 hL
    have hp := hL p (List.mem_cons_self p rest)
    rw [List.cons_append, exeLoop_cons_false_eq]
    rw [if_neg hp, if_neg (by simp)]
    rw [ih (i + 1) l2 (fun r hr => hL r (List.mem_cons_of_mem p hr))]
    have harith : i + 1 + rest.length = i + (p :: rest).length := by
      simp [List.length_cons]; omega
    rw [harith]
    cases h2 : exeLoop tlen tv (i + (p :: rest).length) none none false l2 with
    | none => simp
    | some r => cases r; simp

theorem exeLoop_main (tlen tv : Int) (l1 : List Phdr) (p q : Phdr) (t : List Phdr)
    (h1 : ∀ r ∈ l1, ¬ (r.p_vaddr ≤ tv ∧ tv < r.p_vaddr + r.p_memsz))
    (h2 : p.p_vaddr ≤ tv ∧ tv < p.p_vaddr + p.p_memsz)
    (h3 : ∀ r ∈ q :: t, ¬ (r.p_vaddr ≤ p.p_vaddr ∧ p.p_vaddr < r.p_vaddr + r.p_memsz)) :
    exeLoop tlen tv 0 none none false (l1 ++ p :: q :: t) =
      some (l1 ++ { p with p_filesz := p.p_memsz } :: shiftPhdr tlen q ::
        t.map (shiftPhdr tlen), some (p.p_offset, q.p_offset)) := by
  rw [exeLoop_pre tlen tv l1 0 (p :: q :: t) h1]
  have hstep : exeLoop tlen tv (0 + l1.length) none none false (p :: q :: t) =
      some ({ p with p_filesz := p.p_memsz } :: shiftPhdr tlen q ::
        t.map (shiftPhdr tlen), some (p.p_offset, q.p_offset)) := by
    rw [exeLoop_cons_false_eq]
    rw [if_pos h2]
    simp only [exeLoop_post_true tlen p.p_vaddr (p.p_offset, q.p_offset) q t
      (0 + l1.length + 1) (h3 q (List.mem_cons_self q t))
      (fun r hr => h3 r (List.mem_cons_of_mem q hr))]
  rw [hstep]

theorem shlibLoop_cons_eq (ta tlen : Int) (acc : Option (Int × Int)) (p : Phdr)
    (rest : List Phdr) :
    shlibLoop ta tlen (p :: rest) acc =
      (if p.p_vaddr = ta then
        match rest with
        | [] => none
        | q :: _ =>
          match shlibLoop ta tlen rest (some (p.p_offset, q.p_offset)) with
          | none => none
          | some (l, a) => some ({ p with p_filesz := p.p_memsz } :: l, a)
      else if acc.isSome = true ∧ p.p_type = PT_LOAD then
        match shlibLoop ta tlen rest acc with
        | none => none
        | some (l, a) => some (shiftPhdr tlen p :: l, a)
      else
        match shlibLoop ta tlen rest acc with
        | none => none
        | some (l, a) => some (p :: l, a)) := rfl

theorem shlibLoop_post (ta tlen : Int) (a : Int × Int) :
    ∀ l : List Phdr, (∀ r ∈ l, ¬ r.p_vaddr = ta) →
      shlibLoop ta tlen l (some a) = some (l.map (shiftLoad tlen), some a) := by
  intro l
  induction l with
  | nil => intro _; rfl
  | cons p rest ih =>
    intro hL
    have hp := hL p (List.mem_cons_self p rest)
    rw [shlibLoop_cons_eq]
    rw [if_neg hp]
    by_cases hload : p.p_type = PT_LOAD
    · rw [if_pos ⟨rfl, hload⟩]
      rw [ih (fun r hr => hL r (List.mem_cons_of_mem p hr))]
      simp [shiftLoad, hload]
    · rw [if_neg (by simp [hload])]
      rw [ih (fun r hr => hL r (List.mem_cons_of_mem p hr))]
      simp [shiftLoad, hload]

theorem shlibLoop_pre (ta tlen : Int) :
    ∀ (l1 l2 : List Phdr), (∀ r ∈ l1, ¬ r.p_vaddr = ta) →
      shlibLoop ta tlen (l1 ++ l2) none =
        match shlibLoop ta tlen l2 none with
        | none => none
        | some (l, a) => some (l1 ++ l, a) := by
  intro l1
  induction l1 with
  | nil =>
    intro l2 _
    simp only [List.nil_append]
    cases h : shlibLoop ta tlen l2 none with
    | none => simp
    | some r => cases r; simp
  | cons p rest ih =>
    intro l2 hL
    have hp := hL p (List.mem_cons_self p rest)
    rw [List.cons_append, shlibLoop_cons_eq]
    rw [if_neg hp, if_neg (by simp)]
    rw [ih l2 (fun r hr => hL r (List.mem_cons_of_mem p hr))]
    cases h2 : shlibLoop ta tlen l2 none with
    | none => simp
    | some r => cases r; simp

theorem shlibLoop_main (ta tlen : Int) (s1 : List Phdr) (sp sq : Phdr) (st : List Phdr)
    (g1 : ∀ r ∈ s1, ¬ r.p_vaddr = ta) (g2 : sp.p_vaddr = ta)
    (g3 : ∀ r ∈ sq :: st, ¬ r.p_vaddr = ta) :
    shlibLoop ta tlen (s1 ++ sp :: sq :: st) none =
      some (s1 ++ { sp with p_filesz := sp.p_memsz } :: (sq :: st).map (shiftLoad tlen),
        some (sp.p_offset, sq.p_offset)) := by
  rw [shlibLoop_pre ta tlen s1 (sp :: sq :: st) g1]
  have hstep : shlibLoop ta tlen (sp :: sq :: st) none =
      some ({ sp with p_filesz := sp.p_memsz } :: (sq :: st).map (shiftLoad tlen),
        some (sp.p_offset, sq.p_offset)) := by
    rw [shlibLoop_cons_eq]
    rw [if_pos g2]
    simp only [shlibLoop_post ta tlen (sp.p_offset, sq.p_offset) (sq :: st) g3]
  rw [hstep]

/-- C2: after a text-merge pass, the matched program header has p_filesz
equal to p_memsz, and every subsequent LOAD program header in file order
has its p_offset increased by exactly (injected_text_len - 4096).  For
the main-executable pass (exeLoop, containment match, unique in-range
header, no rematch after it) every subsequent header of any type is
shifted, hence in particular the LOAD ones; for the shared-library pass
(shlibLoop, exact-vaddr match) exactly the subsequent PT_LOAD headers
are shifted; in both, the recorded pair is the matched header offset and
the pre-shift offset of its successor. -/
theorem C2_textmerge_phdr_adjust (tlen tv ta : Int)
    (l1 t s1 st : List Phdr) (p q sp sq : Phdr)
    (h1 : ∀ r ∈ l1, ¬ (r.p_vaddr ≤ tv ∧ tv < r.p_vaddr + r.p_memsz))
    (h2 : p.p_vaddr ≤ tv ∧ tv < p.p_vaddr + p.p_memsz)
    (h3 : ∀ r ∈ q :: t, ¬ (r.p_vaddr ≤ p.p_vaddr ∧ p.p_vaddr < r.p_vaddr + r.p_memsz))
    (g1 : ∀ r ∈ s1, ¬ r.p_vaddr = ta) (g2 : sp.p_vaddr = ta)
    (g3 : ∀ r ∈ sq :: st, ¬ r.p_vaddr = ta) :
    exeLoop tlen tv 0 none none false (l1 ++ p :: q :: t) =
      some (l1 ++ { p with p_filesz := p.p_memsz } :: shiftPhdr tlen q ::
        t.map (shiftPhdr tlen), some (p.p_offset, q.p_offset)) ∧
    shlibLoop ta tlen (s1 ++ sp :: sq :: st) none =
      some (s1 ++ { sp with p_filesz := sp.p_memsz } :: (sq :: st).map (shiftLoad tlen),
        some (sp.p_offset, sq.p_offset)) :=
  ⟨exeLoop_main tlen tv l1 p q t h1 h2 h3, shlibLoop_main ta tlen s1 sp sq st g1 g2 g3⟩

/-- Witness for C2: a three-header core (note, text at vaddr 0x1000,
data LOAD and one PT_DYNAMIC tail header) merged with a text image of
length tlen = 8192. -/
theorem C2_textmerge_phdr_adjust_witness :
    (∀ r ∈ [(⟨PT_NOTE, 0, 4, 0, 336, 0⟩ : Phdr)],
      ¬ (r.p_vaddr ≤ (4096 : Int) ∧ (4096 : Int) < r.p_vaddr + r.p_memsz)) ∧
    ((⟨PT_LOAD, 5, 16, 4096, 16, 8192⟩ : Phdr).p_vaddr ≤ (4096 : Int) ∧
      (4096 : Int) < (⟨PT_LOAD, 5, 16, 4096, 16, 8192⟩ : Phdr).p_vaddr +
        (⟨PT_LOAD, 5, 16, 4096, 16, 8192⟩ : Phdr).p_memsz) ∧
    (∀ r ∈ [(⟨PT_LOAD, 6, 32, 16384, 16, 16⟩ : Phdr), ⟨PT_DYNAMIC, 6, 40, 16400, 8, 8⟩],
      ¬ (r.p_vaddr ≤ (4096 : Int) ∧ (4096 : Int) < r.p_vaddr + r.p_memsz)) ∧
    (∀ r ∈ [(⟨PT_NOTE, 0, 4, 0, 336, 0⟩ : Phdr)], ¬ r.p_vaddr = (4096 : Int)) ∧
    ((⟨PT_LOAD, 5, 16, 4096, 16, 8192⟩ : Phdr).p_vaddr = (4096 : Int)) ∧
    (∀ r ∈ [(⟨PT_LOAD, 6, 32, 16384, 16, 16⟩ : Phdr), ⟨PT_DYNAMIC, 6, 40, 16400, 8, 8⟩],
      ¬ r.p_vaddr = (4096 : Int)) ∧
    (exeLoop 8192 4096 0 none none false
        ([⟨PT_NOTE, 0, 4, 0, 336, 0⟩] ++ ⟨PT_LOAD, 5, 16, 4096, 16, 8192⟩ ::
          ⟨PT_LOAD, 6, 32, 16384, 16, 16⟩ :: [⟨PT_DYNAMIC, 6, 40, 16400, 8, 8⟩]) =
        some ([⟨PT_NOTE, 0, 4, 0, 336, 0⟩] ++
          { (⟨PT_LOAD, 5, 16, 4096, 16, 8192⟩ : Phdr) with p_filesz :=
              (⟨PT_LOAD, 5, 16, 4096, 16, 8192⟩ : Phdr).p_memsz } ::
            shiftPhdr 8192 ⟨PT_LOAD, 6, 32, 16384, 16, 16⟩ ::
            ([(⟨PT_DYNAMIC, 6, 40, 16400, 8, 8⟩ : Phdr)]).map (shiftPhdr 8192),
          some ((⟨PT_LOAD, 5, 16, 4096, 16, 8192⟩ : Phdr).p_offset,
            (⟨PT_LOAD, 6, 32, 16384, 16, 16⟩ : Phdr).p_offset)) ∧
      shlibLoop 4096 8192
        ([⟨PT_NOTE, 0, 4, 0, 336, 0⟩] ++ ⟨PT_LOAD, 5, 16, 4096, 16, 8192⟩ ::
          ⟨PT_LOAD, 6, 32, 16384, 16, 16⟩ :: [⟨PT_DYNAMIC, 6, 40, 16400, 8, 8⟩]) none =
        some ([⟨PT_NOTE, 0, 4, 0, 336, 0⟩] ++
          { (⟨PT_LOAD, 5, 16, 4096, 16, 8192⟩ : Phdr) with p_filesz :=
              (⟨PT_LOAD, 5, 16, 4096, 16, 8192⟩ : Phdr).p_memsz } ::
            ((⟨PT_LOAD, 6, 32, 16384, 16, 16⟩ : Phdr) ::
              [(⟨PT_DYNAMIC, 6, 40, 16400, 8, 8⟩ : Phdr)]).map (shiftLoad 8192),
          some ((⟨PT_LOAD, 5, 16, 4096, 16, 8192⟩ : Phdr).p_offset,
            (⟨PT_LOAD, 6, 32, 16384, 16, 16⟩ : Phdr).p_offset))) :=
  ⟨by decide, by decide, by decide, by decide, by decide, by decide,
   C2_textmerge_phdr_adjust 8192 4096 4096
     [⟨PT_NOTE, 0, 4, 0, 336, 0⟩] [⟨PT_DYNAMIC, 6, 40, 16400, 8, 8⟩]
     [⟨PT_NOTE, 0, 4, 0, 336, 0⟩] [⟨PT_DYNAMIC, 6, 40, 16400, 8, 8⟩]
     ⟨PT_LOAD, 5, 16, 4096, 16, 8192⟩ ⟨PT_LOAD, 6, 32, 16384, 16, 16⟩
     ⟨PT_LOAD, 5, 16, 4096, 16, 8192⟩ ⟨PT_LOAD, 6, 32, 16384, 16, 16⟩
     (by decide) (by decide) (by decide) (by decide) (by decide) (by decide)⟩

theorem strStrtab_ne_symtab : ¬ strStrtab = strSymtab := by decide

theorem strDynsym_ne_symtab : ¬ strDynsym = strSymtab := by decide

theorem strDynsym_ne_strtab : ¬ strDynsym = strStrtab := by decide

theorem strSymtab_ne_strtab : ¬ strSymtab = strStrtab := by decide

theorem pass1_fst (so ss sl sz : Nat) :
    ∀ (l : List Shdr) (d : Nat),
      (finalize_pass1 so ss sl sz l d).1 = l.map (patchOne so ss sl sz) := by
  intro l
  induction l with
  | nil => intro d; rfl
  | cons x xs ih =>
    intro d
    by_cases c1 : x.name = strSymtab
    · simp [finalize_pass1, patchOne, c1, ih]
    · by_cases c2 : x.name = strStrtab
      · simp [finalize_pass1, patchOne, c1, c2, ih, strStrtab_ne_symtab]
      · by_cases c3 : x.name = strDynsym
        · simp [finalize_pass1, patchOne, c1, c2, c3, ih, strDynsym_ne_symtab,
            strDynsym_ne_strtab]
        · simp [finalize_pass1, patchOne, c1, c2, c3, ih]

theorem pass1_snd_nodyn (so ss sl sz : Nat) :
    ∀ (l : List Shdr) (d : Nat), (∀ s ∈ l, ¬ s.name = strDynsym) →
      (finalize_pass1 so ss sl sz l d).2 = d := by
  intro l
  induction l with
  | nil => intro d _; rfl
  | cons x xs ih =>
    intro d hL
    have hx := hL x (List.mem_cons_self x xs)
    have hrest := fun s hs => hL s (List.mem_cons_of_mem x hs)
    by_cases c1 : x.name = strSymtab
    · simp [finalize_pass1, c1, ih d hrest]
    · by_cases c2 : x.name = strStrtab
      · simp [finalize_pass1, c1, c2, ih d hrest, strStrtab_ne_symtab]
      · simp [finalize_pass1, c1, c2, hx, ih d hrest]

theorem pass1_snd (so ss sl sz : Nat) (sd : Shdr) (b : List Shdr)
    (hsd : sd.name = strDynsym) (hb : ∀ s ∈ b, ¬ s.name = strDynsym) :
    ∀ (a : List Shdr) (d : Nat),
      (finalize_pass1 so ss sl sz (a ++ sd :: b) d).2 = sd.sh_size / sizeof_Sym := by
  intro a
  induction a with
  | nil =>
    intro d
    have c1 : ¬ sd.name = strSymtab := by rw [hsd]; decide
    have c2 : ¬ sd.name = strStrtab := by rw [hsd]; decide
    simp [finalize_pass1, c1, c2, hsd, strDynsym_ne_symtab, strDynsym_ne_strtab,
      pass1_snd_nodyn so ss sl sz b _ hb]
  | cons x xs ih =>
    intro d
    by_cases c1 : x.name = strSymtab
    · simp [finalize_pass1, c1, ih]
    · by_cases c2 : x.name = strStrtab
      · simp [finalize_pass1, c1, c2, ih, strStrtab_ne_symtab]
      · by_cases c3 : x.name = strDynsym
        · simp [finalize_pass1, c1, c2, c3, ih, strDynsym_ne_symtab, strDynsym_ne_strtab]
        · simp [finalize_pass1, c1, c2, c3, ih]

theorem resize_first (d : Nat) (g : Shdr) (hg : g.name = strGotPlt) :
    ∀ (a b : List Shdr), (∀ s ∈ a, ¬ s.name = strGotPlt) →
      resize_got_plt d (a ++ g :: b) =
        a ++ { g with sh_size := d * sizeof_Addr + 3 * sizeof_Addr } :: b := by
  intro a
  induction a with
  | nil => intro b _; simp [resize_got_plt, hg]
  | cons x xs ih =>
    intro b hA
    have hx := hA x (List.mem_cons_self x xs)
    simp [resize_got_plt, hx, ih b (fun s hs => hA s (List.mem_cons_of_mem x hs))]

/-- C6: after symbol reconstruction the .got.plt section header sh_size
equals (dynsym_count + 3) times the word size, with dynsym_count computed
as the .dynsym sh_size divided by the symbol entry size (24) and word
size 8: the first finalize loop records dsymcount from the last .dynsym
header (sd here, with none after it), the second loop resizes the first
.got.plt header of the patched table and leaves the rest alone. -/
theorem C6_got_plt_size (so ss sl sz : Nat) (a b c e : List Shdr) (sd g : Shdr)
    (hsd : sd.name = strDynsym) (hb : ∀ s ∈ b, ¬ s.name = strDynsym)
    (hsplit : (a ++ sd :: b).map (patchOne so ss sl sz) = c ++ g :: e)
    (hc : ∀ s ∈ c, ¬ s.name = strGotPlt) (hg : g.name = strGotPlt) :
    resize_got_plt (finalize_pass1 so ss sl sz (a ++ sd :: b) 0).2
        (finalize_pass1 so ss sl sz (a ++ sd :: b) 0).1 =
      c ++ { g with sh_size := (sd.sh_size / sizeof_Sym + 3) * sizeof_Addr } :: e := by
  rw [pass1_fst, hsplit, pass1_snd so ss sl sz sd b hsd hb a 0]
  rw [resize_first _ g hg c e hc]
  have harith : sd.sh_size / sizeof_Sym * sizeof_Addr + 3 * sizeof_Addr =
      (sd.sh_size / sizeof_Sym + 3) * sizeof_Addr := by
    unfold sizeof_Addr
    ring
  rw [harith]

/-- Witness for C6: a two-section table with a .dynsym of size 48 (two
symbol entries) and a .got.plt, resized to (2 + 3) * 8 = 40. -/
theorem C6_got_plt_size_witness :
    ((⟨".dynsym", 100, 48⟩ : Shdr).name = strDynsym) ∧
    (∀ s ∈ [(⟨".got.plt", 60, 0⟩ : Shdr)], ¬ s.name = strDynsym) ∧
    (([] ++ (⟨".dynsym", 100, 48⟩ : Shdr) :: [⟨".got.plt", 60, 0⟩]).map
        (patchOne 500 48 548 14) =
      [(⟨".dynsym", 100, 48⟩ : Shdr)] ++ (⟨".got.plt", 60, 0⟩ : Shdr) :: []) ∧
    (∀ s ∈ [(⟨".dynsym", 100, 48⟩ : Shdr)], ¬ s.name = strGotPlt) ∧
    ((⟨".got.plt", 60, 0⟩ : Shdr).name = strGotPlt) ∧
    resize_got_plt
        (finalize_pass1 500 48 548 14 ([] ++ (⟨".dynsym", 100, 48⟩ : Shdr) ::
          [⟨".got.plt", 60, 0⟩]) 0).2
        (finalize_pass1 500 48 548 14 ([] ++ (⟨".dynsym", 100, 48⟩ : Shdr) ::
          [⟨".got.plt", 60, 0⟩]) 0).1 =
      [(⟨".dynsym", 100, 48⟩ : Shdr)] ++
        { (⟨".got.plt", 60, 0⟩ : Shdr) with sh_size :=
            ((⟨".dynsym", 100, 48⟩ : Shdr).sh_size / sizeof_Sym + 3) * sizeof_Addr } :: [] :=
  ⟨by decide, by decide, by decide, by decide, by decide,
   C6_got_plt_size 500 48 548 14 [] [⟨".got.plt", 60, 0⟩] [⟨".dynsym", 100, 48⟩] []
     ⟨".dynsym", 100, 48⟩ ⟨".got.plt", 60, 0⟩
     (by decide) (by decide) (by decide) (by decide) (by decide)⟩

theorem hexDigitChar_ne_nul : ∀ n < 16, ¬ hexDigitChar n = '\x00' := by decide

theorem hexDigitChar_injOn : ∀ a < 16, ∀ b < 16, hexDigitChar a = hexDigitChar b → a = b := by
  decide

theorem hexRevFuel_lt : ∀ (fuel n d : Nat), d ∈ hexRevFuel fuel n → d < 16 := by
  intro fuel
  induction fuel with
  | zero => intro n d h; simp [hexRevFuel] at h
  | succ f ih =>
    intro n d h
    cases n with
    | zero => simp [hexRevFuel] at h
    | succ m =>
      simp only [hexRevFuel] at h
      rcases List.mem_cons.mp h with h | h
      · subst h; exact Nat.mod_lt _ (by omega)
      · exact ih _ _ h

theorem unhex_hexRevFuel : ∀ (fuel n : Nat), n ≤ fuel → unhex (hexRevFuel fuel n) = n := by
  intro fuel
  induction fuel with
  | zero =>
    intro n h
    have hn : n = 0 := by omega
    subst hn
    rfl
  | succ f ih =>
    intro n h
    cases n with
    | zero => rfl
    | succ m =>
      simp only [hexRevFuel, unhex]
      have hdiv : (m + 1) / 16 ≤ f := by
        have := Nat.div_lt_self (show 0 < m + 1 by omega) (show 1 < 16 by omega)
        omega
      rw [ih ((m + 1) / 16) hdiv]
      omega

theorem hexChars_ne_nul : ∀ (a : Nat), ∀ c ∈ hexChars a, ¬ c = '\x00' := by
  intro a c hc
  unfold hexChars at hc
  by_cases ha : a = 0
  · simp [ha] at hc
    subst hc
    decide
  · simp only [ha, if_false, List.mem_reverse, List.mem_map] at hc
    obtain ⟨d, hd, rfl⟩ := hc
    exact hexDigitChar_ne_nul d (hexRevFuel_lt a a d hd)

theorem sub_name_ne_nul (a : Nat) : ∀ c ∈ sub_name a, ¬ c = '\x00' := by
  intro c hc
  unfold sub_name at hc
  rcases List.mem_cons.mp hc with rfl | hc
  · decide
  rcases List.mem_cons.mp hc with rfl | hc
  · decide
  rcases List.mem_cons.mp hc with rfl | hc
  · decide
  rcases List.mem_cons.mp hc with rfl | hc
  · decide
  exact hexChars_ne_nul a c hc

theorem map_hexDigitChar_inj :
    ∀ (l1 l2 : List Nat), (∀ x ∈ l1, x < 16) → (∀ x ∈ l2, x < 16) →
      l1.map hexDigitChar = l2.map hexDigitChar → l1 = l2 := by
  intro l1
  induction l1 with
  | nil =>
    intro l2 _ _ h
    cases l2 with
    | nil => rfl
    | cons y ys => simp at h
  | cons x xs ih =>
    intro l2 h1 h2 h
    cases l2 with
    | nil => simp at h
    | cons y ys =>
      simp only [List.map_cons, List.cons.injEq] at h
      have hx := h1 x (List.mem_cons_self x xs)
      have hy := h2 y (List.mem_cons_self y ys)
      rw [hexDigitChar_injOn x hx y hy h.1,
        ih ys (fun z hz => h1 z (List.mem_cons_of_mem x hz))
          (fun z hz => h2 z (List.mem_cons_of_mem y hz)) h.2]

theorem hexChars_inj : ∀ (m n : Nat), hexChars m = hexChars n → m = n := by
  have key : ∀ k : Nat, ∃ L, hexChars k = (L.map hexDigitChar).reverse ∧
      (∀ x ∈ L, x < 16) ∧ unhex L = k := by
    intro k
    by_cases hk : k = 0
    · subst hk
      exact ⟨[0], by decide, by decide, rfl⟩
    · exact ⟨hexRevFuel k k, by simp [hexChars, hk],
        fun x hx => hexRevFuel_lt _ _ _ hx, unhex_hexRevFuel k k (Nat.le_refl k)⟩
  intro m n h
  obtain ⟨L1, e1, b1, v1⟩ := key m
  obtain ⟨L2, e2, b2, v2⟩ := key n
  rw [e1, e2] at h
  have hmap := List.reverse_injective h
  have hL := map_hexDigitChar_inj L1 L2 b1 b2 hmap
  rw [hL] at v1
  omega

theorem sub_name_inj : ∀ (a b : Nat), sub_name a = sub_name b → a = b := by
  intro a b h
  simp only [sub_name, List.cons.injEq, true_and] at h
  exact hexChars_inj a b h

theorem takeWhile_str : ∀ (nm rest : List Char), (∀ c ∈ nm, ¬ c = '\x00') →
    (nm ++ '\x00' :: rest).takeWhile (fun c => c != '\x00') = nm := by
  intro nm
  induction nm with
  | nil => intro rest _; simp [List.takeWhile_cons]
  | cons c t ih =>
    intro rest h
    have hc := h c (List.mem_cons_self c t)
    simp only [List.cons_append, List.takeWhile_cons]
    rw [if_pos (by simp [hc])]
    rw [ih rest (fun x hx => h x (List.mem_cons_of_mem c hx))]

theorem build_count_aux (tidx target : Nat) :
    ∀ (rs : List fde_func_data) (off : Nat) (ctx : List Char), ctx.length = off →
      ((build_local_symtab tidx rs off).1.countP
        (fun s => c_str_at (ctx ++ (build_local_symtab tidx rs off).2) s.st_name
          == sub_name target)) =
      rs.countP (fun f => f.addr == target) := by
  intro rs
  induction rs with
  | nil => intro off ctx _; rfl
  | cons f rest ih =>
    intro off ctx hctx
    simp only [build_local_symtab]
    rw [List.countP_cons, List.countP_cons]
    have hhead : c_str_at (ctx ++ (sub_name f.addr ++ '\x00' ::
        (build_local_symtab tidx rest (off + (sub_name f.addr).length + 1)).2)) off =
        sub_name f.addr := by
      unfold c_str_at
      rw [← hctx, List.drop_left]
      exact takeWhile_str (sub_name f.addr) _ (sub_name_ne_nul f.addr)
    congr 1
    · have ihx := ih (off + (sub_name f.addr).length + 1)
        (ctx ++ sub_name f.addr ++ ['\x00']) (by simp [hctx]; omega)
      simpa [List.append_assoc, List.singleton_append] using ihx
    · rw [hhead]
      by_cases hft : f.addr = target
      · simp [hft]
      · have h2 : ¬ sub_name f.addr = sub_name target :=
          fun hh => hft (sub_name_inj _ _ hh)
        simp [hft, h2]

theorem build_mem_aux (tidx : Nat) :
    ∀ (rs : List fde_func_data) (off : Nat) (ctx : List Char), ctx.length = off →
      ∀ s ∈ (build_local_symtab tidx rs off).1,
        ∃ f, f ∈ rs ∧ s.st_value = f.addr ∧ s.st_size = f.size ∧ s.st_info = 18 ∧
          s.st_shndx = tidx ∧
          c_str_at (ctx ++ (build_local_symtab tidx rs off).2) s.st_name =
            sub_name f.addr := by
  intro rs
  induction rs with
  | nil => intro off ctx _ s h; simp [build_local_symtab] at h
  | cons f rest ih =>
    intro off ctx hctx s hs
    simp only [build_local_symtab] at hs ⊢
    have hhead : c_str_at (ctx ++ (sub_name f.addr ++ '\x00' ::
        (build_local_symtab tidx rest (off + (sub_name f.addr).length + 1)).2)) off =
        sub_name f.addr := by
      unfold c_str_at
      rw [← hctx, List.drop_left]
      exact takeWhile_str (sub_name f.addr) _ (sub_name_ne_nul f.addr)
    rcases List.mem_cons.mp hs with rfl | hs
    · exact ⟨f, List.mem_cons_self f rest, rfl, rfl, rfl, rfl, hhead⟩
    · have ihx := ih (off + (sub_name f.addr).length + 1)
        (ctx ++ sub_name f.addr ++ ['\x00']) (by simp [hctx]; omega) s hs
      obtain ⟨g, hg, hv, hsz2, hinfo, hshndx, hcname⟩ := ihx
      refine ⟨g, List.mem_cons_of_mem f hg, hv, hsz2, hinfo, hshndx, ?_⟩
      simpa [List.append_assoc, List.singleton_append] using hcname

theorem pass1_patch (so ss sl sz : Nat) :
    ∀ (l : List Shdr) (d : Nat) (s : Shdr), s ∈ (finalize_pass1 so ss sl sz l d).1 →
      (s.name = strSymtab → s.sh_offset = so ∧ s.sh_size = ss) ∧
      (s.name = strStrtab → s.sh_offset = sl ∧ s.sh_size = sz) := by
  intro l
  induction l with
  | nil => intro d s h; simp [finalize_pass1] at h
  | cons x xs ih =>
    intro d s h
    by_cases c1 : x.name = strSymtab
    · simp only [finalize_pass1, c1, if_true, if_pos] at h
      rcases List.mem_cons.mp h with rfl | h
      · exact ⟨fun _ => ⟨rfl, rfl⟩, fun hn => absurd hn strSymtab_ne_strtab⟩
      · exact ih _ s h
    · by_cases c2 : x.name = strStrtab
      · simp only [finalize_pass1, c1, c2, if_false, if_true, if_pos] at h
        rcases List.mem_cons.mp h with rfl | h
        · exact ⟨fun hn => absurd hn strStrtab_ne_symtab, fun _ => ⟨rfl, rfl⟩⟩
        · exact ih _ s h
      · by_cases c3 : x.name = strDynsym
        · simp only [finalize_pass1, c1, c2, c3, if_false, if_true, if_pos] at h
          rcases List.mem_cons.mp h with rfl | h
          · exact ⟨fun hn => absurd hn c1, fun hn => absurd hn c2⟩
          · exact ih _ s h
        · simp only [finalize_pass1, c1, c2, c3, if_false] at h
          rcases List.mem_cons.mp h with rfl | h
          · exact ⟨fun hn => absurd hn c1, fun hn => absurd hn c2⟩
          · exact ih _ s h

/-- C7: for every record of the exception-frame function table, the
reconstructed symbol table contains exactly one symbol whose string-table
name is sub_ followed by the address in lowercase hex, and any symbol
bearing that name has st_value the address, st_size the size, st_info 18
(GLOBAL and FUNC) and st_shndx the .text section index; the symbol array
is appended at the end of the existing file (offset origLen) with its
string table right after it, and the .symtab and .strtab section headers
are patched to those offsets and sizes.  Addresses are assumed pairwise
distinct, as exception-frame function starts are. -/
theorem C7_symbol_reconstruction (tidx origLen : Nat) (rs : List fde_func_data)
    (r : fde_func_data) (s : ElfSym) (sh : Shdr) (l : List Shdr)
    (hnodup : (rs.map (fun f => f.addr)).Nodup) (hr : r ∈ rs)
    (hs : s ∈ (build_local_symtab tidx rs 0).1)
    (hname : c_str_at (build_local_symtab tidx rs 0).2 s.st_name = sub_name r.addr)
    (hsh : sh ∈ (finalize_pass1 origLen (sizeof_Sym * rs.length)
      (origLen + sizeof_Sym * rs.length) (build_local_symtab tidx rs 0).2.length l 0).1) :
    ((build_local_symtab tidx rs 0).1.countP
      (fun s2 => c_str_at (build_local_symtab tidx rs 0).2 s2.st_name
        == sub_name r.addr)) = 1 ∧
    (s.st_value = r.addr ∧ s.st_size = r.size ∧ s.st_info = 18 ∧ s.st_shndx = tidx) ∧
    (sh.name = strSymtab → sh.sh_offset = origLen ∧
      sh.sh_size = sizeof_Sym * rs.length) ∧
    (sh.name = strStrtab → sh.sh_offset = origLen + sizeof_Sym * rs.length ∧
      sh.sh_size = (build_local_symtab tidx rs 0).2.length) := by
  refine ⟨?_, ?_, (pass1_patch _ _ _ _ l 0 sh hsh).1, (pass1_patch _ _ _ _ l 0 sh hsh).2⟩
  · have hc := build_count_aux tidx r.addr rs 0 [] rfl
    simp only [List.nil_append] at hc
    rw [hc]
    have h1 : rs.countP (fun f => f.addr == r.addr) =
        (rs.map (fun f => f.addr)).count r.addr := by
      simp only [List.count, List.countP_map]
      rfl
    rw [h1]
    exact List.count_eq_one_of_mem hnodup (List.mem_map_of_mem _ hr)
  · have hmem := build_mem_aux tidx rs 0 [] rfl s hs
    simp only [List.nil_append] at hmem
    obtain ⟨f, hf, hv, hsz2, hinfo, hshndx, hcname⟩ := hmem
    have hsub : sub_name f.addr = sub_name r.addr := by rw [← hcname, hname]
    have hfr : f.addr = r.addr := sub_name_inj _ _ hsub
    have hfeq : f = r := List.inj_on_of_nodup_map hnodup hf hr hfr
    subst hfeq
    exact ⟨hv, hsz2, hinfo, hshndx⟩

/-- Witness for C7: two function records at addresses 0x10 and 0x2a, the
symbol of the first (named sub_10 at string offset 0), and the patched
.symtab header of a two-entry section table, with original file length
500 and 48 appended symbol bytes. -/
theorem C7_symbol_reconstruction_witness :
    (([⟨16, 4⟩, ⟨42, 8⟩] : List fde_func_data).map (fun f => f.addr)).Nodup ∧
    (⟨16, 4⟩ : fde_func_data) ∈ ([⟨16, 4⟩, ⟨42, 8⟩] : List fde_func_data) ∧
    (⟨0, 18, 0, 9, 16, 4⟩ : ElfSym) ∈ (build_local_symtab 9 [⟨16, 4⟩, ⟨42, 8⟩] 0).1 ∧
    c_str_at (build_local_symtab 9 [⟨16, 4⟩, ⟨42, 8⟩] 0).2
      (⟨0, 18, 0, 9, 16, 4⟩ : ElfSym).st_name = sub_name (⟨16, 4⟩ : fde_func_data).addr ∧
    (⟨".symtab", 500, 48⟩ : Shdr) ∈ (finalize_pass1 500
      (sizeof_Sym * ([⟨16, 4⟩, ⟨42, 8⟩] : List fde_func_data).length)
      (500 + sizeof_Sym * ([⟨16, 4⟩, ⟨42, 8⟩] : List fde_func_data).length)
      (build_local_symtab 9 [⟨16, 4⟩, ⟨42, 8⟩] 0).2.length
      [⟨".symtab", 0, 0⟩, ⟨".strtab", 0, 0⟩] 0).1 ∧
    (((build_local_symtab 9 [⟨16, 4⟩, ⟨42, 8⟩] 0).1.countP
        (fun s2 => c_str_at (build_local_symtab 9 [⟨16, 4⟩, ⟨42, 8⟩] 0).2 s2.st_name
          == sub_name (⟨16, 4⟩ : fde_func_data).addr)) = 1 ∧
      ((⟨0, 18, 0, 9, 16, 4⟩ : ElfSym).st_value = (⟨16, 4⟩ : fde_func_data).addr ∧
        (⟨0, 18, 0, 9, 16, 4⟩ : ElfSym).st_size = (⟨16, 4⟩ : fde_func_data).size ∧
        (⟨0, 18, 0, 9, 16, 4⟩ : ElfSym).st_info = 18 ∧
        (⟨0, 18, 0, 9, 16, 4⟩ : ElfSym).st_shndx = 9) ∧
      ((⟨".symtab", 500, 48⟩ : Shdr).name = strSymtab →
        (⟨".symtab", 500, 48⟩ : Shdr).sh_offset = 500 ∧
        (⟨".symtab", 500, 48⟩ : Shdr).sh_size =
          sizeof_Sym * ([⟨16, 4⟩, ⟨42, 8⟩] : List fde_func_data).length) ∧
      ((⟨".symtab", 500, 48⟩ : Shdr).name = strStrtab →
        (⟨".symtab", 500, 48⟩ : Shdr).sh_offset =
          500 + sizeof_Sym * ([⟨16, 4⟩, ⟨42, 8⟩] : List fde_func_data).length ∧
        (⟨".symtab", 500, 48⟩ : Shdr).sh_size =
          (build_local_symtab 9 [⟨16, 4⟩, ⟨42, 8⟩] 0).2.length)) :=
  ⟨by decide, by decide, by decide, by decide, by decide,
   C7_symbol_reconstruction 9 500 [⟨16, 4⟩, ⟨42, 8⟩] ⟨16, 4⟩ ⟨0, 18, 0, 9, 16, 4⟩
     ⟨".symtab", 500, 48⟩ [⟨".symtab", 0, 0⟩, ⟨".strtab", 0, 0⟩]
     (by decide) (by decide) (by decide) (by decide) (by decide)⟩

end Ecfs
